import Mathlib

/-!
Verification of the BoardBreeze audio-splitter Lambda
(src/lambda/audio-splitter/index.js) against its specification.

The JavaScript source is shallowly embedded: durations are rationals
(JS numbers used for seconds), fallible operations return `Except`,
and the handler's interactions with S3 / ffmpeg / Transcribe are
modelled by an explicit environment `Env` describing the outcome of
each external call, together with a state `St` recording the trace of
external calls, the set of live temporary files in /tmp, and the keys
written to the object store.
-/

namespace BoardBreeze

/-- AudioInfo returned by `analyzeAudioFile` (index.js lines 121-125):
duration (seconds), size (bytes), container format. -/
structure AudioInfo where
  duration : ℚ
  size : ℕ
  format : List Char
  deriving DecidableEq

/-- A segment record as pushed by `splitAudioFile` (index.js lines 177-182):
`index`, `startTime = i * segmentDuration`,
`duration = min(segmentDuration, totalDuration - startTime)`.
The temp-file path is tracked separately in the state. -/
structure Window where
  index : ℕ
  startTime : ℚ
  duration : ℚ
  deriving DecidableEq

/-- `segmentDuration = 3.5 * 60 * 60` (index.js line 139). -/
def segmentDuration : ℚ := 12600

/-- `fourHoursInSeconds = 4 * 60 * 60` (index.js line 38). -/
def fourHoursInSeconds : ℚ := 14400

/-- The segment plan computed by the loop of `splitAudioFile`
(index.js lines 152-183): `numSegments = Math.ceil(totalDuration /
segmentDuration)`; for `i` in `[0, numSegments)` the pushed record is
`{index: i, startTime: i * L, duration: min(L, totalDuration - i*L)}`.
The source hardcodes `L = segmentDuration`; it is a parameter here. -/
def planWindows (totalDuration maxSegmentLength : ℚ) : List Window :=
  (List.range (Int.toNat ⌈totalDuration / maxSegmentLength⌉)).map
    (fun i => ⟨i, (i : ℚ) * maxSegmentLength,
      min maxSegmentLength (totalDuration - (i : ℚ) * maxSegmentLength)⟩)

/-- JS `originalS3Key.replace(/\.[^/.]+$/, '')` (index.js line 196):
leftmost-match replace of a final dot-extension by the empty string.
The regex matches a literal dot followed by one or more characters that
are neither a dot nor a slash, anchored at the end of the string; the
scan tries each position left to right.  -/
def replaceExtension : List Char → List Char
  | [] => []
  | c :: rest =>
    if c = '.' ∧ rest ≠ [] ∧ ∀ d ∈ rest, d ≠ '.' ∧ d ≠ '/' then []
    else c :: replaceExtension rest

/-- The destination key `${baseKey}_segment_${segment.index}.mp3`
(index.js line 199). -/
def segmentKeyOf (originalS3Key : List Char) (index : ℕ) : List Char :=
  replaceExtension originalS3Key ++ ("_segment_").data
    ++ (Nat.repr index).data ++ (".mp3").data

/-- The URL `s3://${bucketName}/${segmentKey}` (index.js line 217). -/
def s3UrlOf (bucketName segmentKey : List Char) : List Char :=
  ("s3://").data ++ bucketName ++ [ '/' ] ++ segmentKey

/-- Temporary files in /tmp, identified by role: the probe input
(line 96), the split input (line 143) and the per-segment output files
(line 159).  The timestamped names make them distinct. -/
inductive TempFile where
  | probeInput : TempFile
  | splitInput : TempFile
  | segFile : ℕ → TempFile
  deriving DecidableEq

/-- One call to an external service: S3 `getObject`, `ffprobe`, one
ffmpeg segment-extraction run (with its `seekInput` and `duration`
arguments, lines 162-164), S3 `putObject` for a segment index, and
`startTranscriptionJob` for a segment index. -/
inductive ExtCall where
  | s3Get : ExtCall
  | ffprobeCall : ExtCall
  | ffmpegSegment : ℕ → ℚ → ℚ → ExtCall
  | s3Put : ℕ → ExtCall
  | transcribeStart : ℕ → ExtCall
  deriving DecidableEq

/-- Observable state threaded through one invocation: the trace of
external calls, the temp files currently existing in /tmp, and the
keys written to the object store so far. -/
structure St where
  calls : List ExtCall
  tmp : List TempFile
  store : List (List Char)
  deriving DecidableEq

def St.empty : St := ⟨[], [], []⟩

/-- Errors thrown inside the handler's try block.  Only the
`missingParams` message text is fixed by index.js (line 28); the other
messages stand for the text of the underlying service error that the
code rethrows. -/
inductive JsError where
  | missingParams : JsError
  | s3GetFailed : JsError
  | ffprobeFailed : JsError
  | ffmpegFailed : ℕ → JsError
  | putFailed : ℕ → JsError
  deriving DecidableEq

def JsError.message : JsError → List Char
  | .missingParams => ("Missing required parameters: s3Key and bucketName").data
  | .s3GetFailed => ("S3 getObject failed").data
  | .ffprobeFailed => ("FFprobe error").data
  | .ffmpegFailed i => ("Error creating segment ").data ++ (Nat.repr (i + 1)).data
  | .putFailed i => ("Error uploading segment ").data ++ (Nat.repr i).data

/-- Behaviour of the external world during one invocation: whether S3
`getObject` succeeds, the ffprobe outcome (`none` = probe error),
and per-segment-index success of ffmpeg, S3 `putObject`, and
`startTranscriptionJob`. -/
structure Env where
  s3GetOk : Bool
  probeResult : Option AudioInfo
  transcodeOk : ℕ → Bool
  putOk : ℕ → Bool
  submitOk : ℕ → Bool

/-- `analyzeAudioFile` (index.js lines 92-133): downloads the object
to a temp file, runs ffprobe on it.  On probe success the temp file is
unlinked (line 117) and the AudioInfo resolved; on probe error the
promise is rejected WITHOUT unlinking the temp file (lines 107-111). -/
def analyzeAudioFile (env : Env) (s : St) : St × Except JsError AudioInfo :=
  if env.s3GetOk then
    let s1 : St := { s with calls := s.calls ++ [ExtCall.s3Get],
                            tmp := s.tmp ++ [TempFile.probeInput] }
    let s2 : St := { s1 with calls := s1.calls ++ [ExtCall.ffprobeCall] }
    match env.probeResult with
    | none => (s2, Except.error JsError.ffprobeFailed)
    | some info =>
        ({ s2 with tmp := s2.tmp.erase TempFile.probeInput }, Except.ok info)
  else
    ({ s with calls := s.calls ++ [ExtCall.s3Get] },
      Except.error JsError.s3GetFailed)

/-- The per-window loop of `splitAudioFile` (index.js lines 157-183):
for each window, run ffmpeg with `seekInput(startTime)` and
`duration(maxSegmentLength)` — the duration argument is the fixed
nominal segment length, not the window's (possibly shorter) length.
On success the segment temp file exists; on error the whole split
rejects. -/
def splitLoop (env : Env) (maxSegmentLength : ℚ) :
    List Window → St → St × Except JsError Unit
  | [], s => (s, Except.ok ())
  | w :: rest, s =>
    let s1 : St := { s with calls := s.calls ++
      [ExtCall.ffmpegSegment w.index w.startTime maxSegmentLength] }
    if env.transcodeOk w.index then
      splitLoop env maxSegmentLength rest
        { s1 with tmp := s1.tmp ++ [TempFile.segFile w.index] }
    else (s1, Except.error (JsError.ffmpegFailed w.index))

/-- Sequencing of two awaited stateful operations inside the
handler's try block: a thrown error propagates with the state at the
point of the throw, a resolved value feeds the continuation. -/
def step {α β : Type} (x : St × Except JsError α)
    (f : α → St → St × Except JsError β) : St × Except JsError β :=
  match x with
  | (s, Except.error e) => (s, Except.error e)
  | (s, Except.ok a) => f a s

/-- `splitAudioFile` (index.js lines 138-189): downloads the source to
a temp input file, runs the per-window ffmpeg loop over the plan, then
unlinks the temp input file and returns the segment records. -/
def splitAudioFile (env : Env) (totalDuration : ℚ) (s : St) :
    St × Except JsError (List Window) :=
  if env.s3GetOk then
    let s1 : St := { s with calls := s.calls ++ [ExtCall.s3Get],
                            tmp := s.tmp ++ [TempFile.splitInput] }
    let ws := planWindows totalDuration segmentDuration
    step (splitLoop env segmentDuration ws s1) (fun _ s2 =>
      ({ s2 with tmp := s2.tmp.erase TempFile.splitInput }, Except.ok ws))
  else
    ({ s with calls := s.calls ++ [ExtCall.s3Get] },
      Except.error JsError.s3GetFailed)

/-- An entry of the `segmentUrls` list built by `uploadSegments`
(index.js lines 218-224). -/
structure SegmentUrlEntry where
  url : List Char
  key : List Char
  index : ℕ
  startTime : ℚ
  duration : ℚ
  deriving DecidableEq

/-- The loop of `uploadSegments` (index.js lines 198-232): for each
segment in order, read its temp file and `putObject` it under the
derived key; on a write error the caught exception is rethrown, which
aborts the loop (line 230).  Earlier successful writes stay in the
store. -/
def uploadLoop (env : Env) (bucketName originalS3Key : List Char) :
    List Window → List SegmentUrlEntry → St →
    St × Except JsError (List SegmentUrlEntry)
  | [], acc, s => (s, Except.ok acc)
  | seg :: rest, acc, s =>
    let k := segmentKeyOf originalS3Key seg.index
    let s1 : St := { s with calls := s.calls ++ [ExtCall.s3Put seg.index] }
    if env.putOk seg.index then
      uploadLoop env bucketName originalS3Key rest
        (acc ++ [⟨s3UrlOf bucketName k, k, seg.index, seg.startTime, seg.duration⟩])
        { s1 with store := s1.store ++ [k] }
    else (s1, Except.error (JsError.putFailed seg.index))

/-- `cleanupTempFiles` (index.js lines 240-249): unlink every
segment's temp file; unlink errors are caught and ignored. -/
def cleanupTempFiles (segments : List Window) (s : St) : St :=
  { s with tmp := segments.foldl (fun t seg => t.erase (TempFile.segFile seg.index)) s.tmp }

/-- The invocation event `{s3Key, bucketName}` (index.js line 25). -/
structure Event where
  s3Key : Option (List Char)
  bucketName : Option (List Char)

/-- JS falsiness of a string-or-absent field: `!x` is true when the
field is absent (undefined/null) or the empty string. -/
def falsyStr : Option (List Char) → Bool
  | none => true
  | some [] => true
  | some (_ :: _) => false

/-- The three body shapes the handler can return (index.js lines
42-49, 64-73, 78-85). -/
inductive HandlerBody where
  | noSplitNeeded : ℚ → List Char → HandlerBody
  | splitComplete : List Char → ℕ → List SegmentUrlEntry → ℚ → HandlerBody
  | errorBody : List Char → HandlerBody
  deriving DecidableEq

structure HandlerResult where
  statusCode : ℕ
  body : HandlerBody
  deriving DecidableEq

/-- The handler's try block (index.js lines 23-74): parameter check,
probe, the four-hour gate, split, upload, cleanup. -/
def handlerTry (env : Env) (event : Event) (s : St) :
    St × Except JsError HandlerResult :=
  if falsyStr event.s3Key || falsyStr event.bucketName then
    (s, Except.error JsError.missingParams)
  else
    let s3Key := event.s3Key.getD []
    let bucketName := event.bucketName.getD []
    step (analyzeAudioFile env s) (fun info s1 =>
      if info.duration ≤ fourHoursInSeconds then
        (s1, Except.ok ⟨200, HandlerBody.noSplitNeeded info.duration
          (("File is within AWS Transcribe limits").data)⟩)
      else
        step (splitAudioFile env info.duration s1) (fun segments s2 =>
          step (uploadLoop env bucketName s3Key segments [] s2)
            (fun segmentUrls s3 =>
              (cleanupTempFiles segments s3,
                Except.ok ⟨200, HandlerBody.splitComplete s3Key
                  segmentUrls.length segmentUrls info.duration⟩))))

/-- `exports.handler` (index.js lines 20-87): the try block wrapped in
the catch that turns any thrown error into the statusCode-500 error
result (lines 75-86). -/
def handler (env : Env) (event : Event) : St × HandlerResult :=
  match handlerTry env event St.empty with
  | (s, Except.ok r) => (s, r)
  | (s, Except.error e) => (s, ⟨500, HandlerBody.errorBody e.message⟩)

/-- The record pushed by `triggerTranscriptionJobs` on a successful
submission (index.js lines 274-279). -/
structure TranscriptionJob where
  jobName : List Char
  segmentIndex : ℕ
  status : List Char
  deriving DecidableEq

/-- `boardbreeze-segment-${segment.index}-${Date.now()}`
(index.js line 258). -/
def jobNameOf (index now : ℕ) : List Char :=
  ("boardbreeze-segment-").data ++ (Nat.repr index).data
    ++ [ '-' ] ++ (Nat.repr now).data

/-- `triggerTranscriptionJobs` (index.js lines 254-290): for each
segment, call `startTranscriptionJob`; on success push a record with
status STARTED, on error log and continue WITHOUT pushing any record
(lines 283-286).  Returns the pushed records; the second component is
the list of segment indices for which a submission was attempted. -/
def triggerTranscriptionJobs (ok : ℕ → Bool) (now : ℕ) :
    List SegmentUrlEntry → List TranscriptionJob × List ℕ
  | [] => ([], [])
  | seg :: rest =>
    let r := triggerTranscriptionJobs ok now rest
    if ok seg.index then
      (⟨jobNameOf seg.index now, seg.index, ("STARTED").data⟩ :: r.1,
        seg.index :: r.2)
    else (r.1, seg.index :: r.2)

/-- Whether an external call is a transcription submission. -/
def ExtCall.isTranscribe : ExtCall → Bool
  | ExtCall.transcribeStart _ => true
  | _ => false

/-- A concrete invocation event used to evaluate the model. -/
def eventM : Event := ⟨some (("meeting.mp3").data), some (("audio-bucket").data)⟩

/-- An environment where S3, ffmpeg and Transcribe succeed, with a
given probe outcome and `putObject` behaviour. -/
def envOf (probe : Option AudioInfo) (put : ℕ → Bool) : Env :=
  ⟨true, probe, fun _ => true, put, fun _ => true⟩

/-- Probe outcome: a four-hour file (equal to the ceiling). -/
def infoShort : AudioInfo := ⟨14400, 500, ("mp3").data⟩

/-- Probe outcome: a seven-hour file. -/
def infoLong : AudioInfo := ⟨25200, 900, ("mp3").data⟩

def envShort : Env := envOf (some infoShort) (fun _ => true)

def envLong : Env := envOf (some infoLong) (fun _ => true)

def envProbeFail : Env := envOf none (fun _ => true)

/-- Environment where `putObject` fails for segment index 1 (and every
index above 0). -/
def envPutFail : Env := envOf (some infoLong) (fun j => decide (j < 1))

/-- Three published segments, as in the spec's dispatch example. -/
def segsThree : List SegmentUrlEntry :=
  [⟨("u0").data, ("k0").data, 0, 0, 12600⟩,
   ⟨("u1").data, ("k1").data, 1, 12600, 12600⟩,
   ⟨("u2").data, ("k2").data, 2, 25200, 1801⟩]

/-- Submission succeeds for every segment except index 1. -/
def okExceptOne : ℕ → Bool := fun i => decide (i ≠ 1)

theorem planWindows_length (D L : ℚ) :
    (planWindows D L).length = Int.toNat ⌈D / L⌉ := by
  simp [planWindows]

theorem planWindows_get (D L : ℚ) (i : ℕ)
    (h : i < (planWindows D L).length) :
    (planWindows D L).get ⟨i, h⟩ =
      ⟨i, (i : ℚ) * L, min L (D - (i : ℚ) * L)⟩ := by
  simp [planWindows]

/-- With `n = ⌈D/L⌉` and `D, L > 0` we have `(n-1)·L < D`. -/
theorem lt_of_index_lt_ceil (D L : ℚ) (hL : 0 < L) (i : ℕ)
    (hi : i + 1 ≤ Int.toNat ⌈D / L⌉) :
    (i : ℚ) * L + L ≤ D ∨ (i + 1 = Int.toNat ⌈D / L⌉ ∧ D ≤ (i + 1 : ℚ) * L) := by
  rcases lt_or_eq_of_le hi with hlt | heq
  · left
    have hz : ((i + 1 : ℕ) : ℤ) < ⌈D / L⌉ := Int.lt_toNat.mp hlt
    have h1 : ((i + 1 : ℤ) : ℚ) < D / L := Int.lt_ceil.mp hz
    have h2 : ((i : ℚ) + 1) * L < D := by
      push_cast at h1
      calc ((i : ℚ) + 1) * L < (D / L) * L := mul_lt_mul_of_pos_right h1 hL
        _ = D := div_mul_cancel₀ D (ne_of_gt hL)
    nlinarith
  · right
    refine ⟨heq, ?_⟩
    have hceil : (⌈D / L⌉ : ℚ) = ((i + 1 : ℕ) : ℚ) := by
      have h0 : (0:ℤ) ≤ ⌈D / L⌉ := by
        by_contra hneg
        push_neg at hneg
        have : Int.toNat ⌈D / L⌉ = 0 := by omega
        omega
      have : (⌈D / L⌉ : ℤ) = (i + 1 : ℕ) := by omega
      exact_mod_cast congrArg (fun z : ℤ => (z : ℚ)) this
    have hle : D / L ≤ (⌈D / L⌉ : ℚ) := Int.le_ceil _
    rw [hceil] at hle
    have := mul_le_mul_of_nonneg_right hle (le_of_lt hL)
    rw [div_mul_cancel₀ D (ne_of_gt hL)] at this
    push_cast at this ⊢
    linarith

theorem ceil_toNat_cast (D L : ℚ) (hD : 0 < D) (hL : 0 < L) :
    ((Int.toNat ⌈D / L⌉ : ℕ) : ℚ) = ((⌈D / L⌉ : ℤ) : ℚ) := by
  have h0 : (0:ℤ) ≤ ⌈D / L⌉ := le_of_lt (Int.ceil_pos.mpr (div_pos hD hL))
  exact_mod_cast congrArg (fun z : ℤ => (z : ℚ)) (Int.toNat_of_nonneg h0)

theorem index_mul_lt (D L : ℚ) (hD : 0 < D) (hL : 0 < L) (i : ℕ)
    (h : i < Int.toNat ⌈D / L⌉) : (i : ℚ) * L < D := by
  have hcast := ceil_toNat_cast D L hD hL
  have hlt : ((⌈D / L⌉ : ℤ) : ℚ) < D / L + 1 := by
    exact_mod_cast Int.ceil_lt_add_one (D / L)
  have hile : (i : ℚ) ≤ ((Int.toNat ⌈D / L⌉ : ℕ) : ℚ) - 1 := by
    have : (i : ℚ) + 1 ≤ ((Int.toNat ⌈D / L⌉ : ℕ) : ℚ) := by exact_mod_cast h
    linarith
  have h2 : (i : ℚ) < D / L := by
    rw [hcast] at hile
    linarith
  calc (i : ℚ) * L < (D / L) * L := mul_lt_mul_of_pos_right h2 hL
    _ = D := div_mul_cancel₀ D (ne_of_gt hL)

theorem duration_eq_max (D L : ℚ) (hD : 0 < D) (hL : 0 < L) (i : ℕ)
    (h : i + 1 < Int.toNat ⌈D / L⌉) :
    min L (D - (i : ℚ) * L) = L := by
  have := index_mul_lt D L hD hL (i + 1) h
  push_cast at this
  exact min_eq_left (by linarith)

theorem D_le_numSegments_mul (D L : ℚ) (hD : 0 < D) (hL : 0 < L) :
    D ≤ ((Int.toNat ⌈D / L⌉ : ℕ) : ℚ) * L := by
  rw [ceil_toNat_cast D L hD hL]
  have hle : D / L ≤ ((⌈D / L⌉ : ℤ) : ℚ) := Int.le_ceil _
  have := mul_le_mul_of_nonneg_right hle (le_of_lt hL)
  rwa [div_mul_cancel₀ D (ne_of_gt hL)] at this

theorem range_map_sum (f : ℕ → ℚ) (n : ℕ) :
    ((List.range n).map f).sum = ∑ i in Finset.range n, f i := by
  induction n with
  | zero => simp
  | succ m ih =>
      rw [List.range_succ, List.map_append, List.sum_append,
        Finset.sum_range_succ, ih]
      simp

theorem planWindows_sum (D L : ℚ) (hD : 0 < D) (hL : 0 < L) :
    ((planWindows D L).map Window.duration).sum = D := by
  obtain ⟨m, hm⟩ : ∃ m, Int.toNat ⌈D / L⌉ = m + 1 := by
    have : 0 < ⌈D / L⌉ := Int.ceil_pos.mpr (div_pos hD hL)
    exact ⟨Int.toNat ⌈D / L⌉ - 1, by omega⟩
  have hmap : (planWindows D L).map Window.duration =
      (List.range (Int.toNat ⌈D / L⌉)).map
        (fun i : ℕ => min L (D - (i : ℚ) * L)) := by
    simp [planWindows]
  rw [hmap, range_map_sum, hm, Finset.sum_range_succ]
  have hconst : ∀ i ∈ Finset.range m,
      min L (D - (i : ℚ) * L) = L := by
    intro i hi
    have hi' := Finset.mem_range.mp hi
    exact duration_eq_max D L hD hL i (by omega)
  rw [Finset.sum_congr rfl hconst, Finset.sum_const, Finset.card_range]
  have hlast : min L (D - (m : ℚ) * L) = D - (m : ℚ) * L := by
    have hle := D_le_numSegments_mul D L hD hL
    rw [hm] at hle
    push_cast at hle
    exact min_eq_right (by linarith)
  rw [hlast]
  ring

/-- C1: for every `totalDuration > 0` and `maxSegmentLength > 0`, the Segment
Planner produces exactly `ceil(totalDuration / maxSegmentLength)` windows;
window `i` has `startSeconds = i * maxSegmentLength` and
`lengthSeconds = min(maxSegmentLength, totalDuration - startSeconds)`; the
windows are dense-indexed from 0, have positive lengths, are contiguous
(hence non-overlapping), and their lengths sum to `totalDuration`. -/
theorem C1_segment_planner (D L : ℚ) (hD : 0 < D) (hL : 0 < L) :
    (planWindows D L).length = Int.toNat ⌈D / L⌉ ∧
    (∀ (i : ℕ) (h : i < (planWindows D L).length),
      ((planWindows D L).get ⟨i, h⟩).index = i ∧
      ((planWindows D L).get ⟨i, h⟩).startTime = (i : ℚ) * L ∧
      ((planWindows D L).get ⟨i, h⟩).duration
        = min L (D - (i : ℚ) * L) ∧
      0 < ((planWindows D L).get ⟨i, h⟩).duration) ∧
    (∀ (i : ℕ) (h : i + 1 < (planWindows D L).length),
      ((planWindows D L).get ⟨i + 1, h⟩).startTime =
        ((planWindows D L).get ⟨i, Nat.lt_of_succ_lt h⟩).startTime +
        ((planWindows D L).get ⟨i, Nat.lt_of_succ_lt h⟩).duration) ∧
    ((planWindows D L).map Window.duration).sum = D := by
  refine ⟨planWindows_length D L, ?_, ?_, planWindows_sum D L hD hL⟩
  · intro i h
    rw [planWindows_get D L i h]
    refine ⟨rfl, rfl, rfl, lt_min hL ?_⟩
    have := index_mul_lt D L hD hL i (by rw [← planWindows_length D L]; exact h)
    linarith
  · intro i h
    rw [planWindows_get D L (i + 1) h,
      planWindows_get D L i (Nat.lt_of_succ_lt h)]
    have hlen : i + 1 < Int.toNat ⌈D / L⌉ := by
      rw [← planWindows_length D L]; exact h
    rw [duration_eq_max D L hD hL i hlen]
    push_cast
    ring

/-- Witness for C1 at the spec's example `totalDuration = 25200`,
`maxSegmentLength = 12600`. -/
theorem C1_segment_planner_witness :
    (planWindows 25200 12600).length = Int.toNat ⌈(25200 : ℚ) / 12600⌉ ∧
    ((planWindows 25200 12600).map Window.duration).sum = 25200 :=
  ⟨(C1_segment_planner 25200 12600 (by norm_num) (by norm_num)).1,
   (C1_segment_planner 25200 12600 (by norm_num) (by norm_num)).2.2.2⟩

theorem replaceExtension_cons_of_mem (c : Char) (t : List Char)
    (hd : '.' ∈ t) :
    replaceExtension (c :: t) = c :: replaceExtension t := by
  simp only [replaceExtension]
  rw [if_neg]
  intro hcond
  exact (hcond.2.2 '.' hd).1 rfl

theorem replaceExtension_strip (a b : List Char) (hb : b ≠ [])
    (hall : ∀ c ∈ b, c ≠ '.' ∧ c ≠ '/') :
    replaceExtension (a ++ '.' :: b) = a := by
  induction a with
  | nil =>
      simp only [List.nil_append, replaceExtension]
      rw [if_pos ⟨trivial, hb, hall⟩]
  | cons c a ih =>
      rw [List.cons_append, replaceExtension_cons_of_mem _ _ (by simp), ih]

/-- C5: the published destination key is derived deterministically from
the source key by stripping its final extension (a dot followed by one
or more non-dot non-slash characters at the end) and appending
`_segment_` plus the index plus `.mp3`; in particular
`meeting.mp3` at index 0 yields `meeting_segment_0.mp3`, and
`folder/meeting.recording.mp3` at index 2 yields
`folder/meeting.recording_segment_2.mp3`. -/
theorem C5_published_key (a b : List Char) (i : ℕ) (hb : b ≠ [])
    (hall : ∀ c ∈ b, c ≠ '.' ∧ c ≠ '/') :
    segmentKeyOf (a ++ '.' :: b) i =
      a ++ ("_segment_").data ++ (Nat.repr i).data ++ (".mp3").data ∧
    segmentKeyOf (("meeting.mp3").data) 0 = ("meeting_segment_0.mp3").data ∧
    segmentKeyOf (("folder/meeting.recording.mp3").data) 2 =
      ("folder/meeting.recording_segment_2.mp3").data := by
  refine ⟨?_, by decide, by decide⟩
  rw [segmentKeyOf, replaceExtension_strip a b hb hall]

/-- Witness for C5 at the concrete key `ab.wav` and index 7. -/
theorem C5_published_key_witness :
    segmentKeyOf ((("ab").data) ++ '.' :: (("wav").data)) 7 =
      ("ab").data ++ ("_segment_").data ++ (Nat.repr 7).data ++ (".mp3").data :=
  (C5_published_key (("ab").data) (("wav").data) 7 (by decide) (by decide)).1

/-- C9 counterexample: for `totalDuration = 0` (and `-1`) the planner
does not fail with any error — it is a total function and returns the
empty plan; no `InvalidDuration` or `InvalidConfiguration` error exists
anywhere in the code. -/
theorem C9_counterexample :
    planWindows 0 segmentDuration = [] ∧
    planWindows (-1) segmentDuration = [] := by
  constructor
  · have h : ⌈(0 : ℚ) / 12600⌉ = 0 := by norm_num
    rw [planWindows, segmentDuration, h]
    rfl
  · have h : ⌈(-1 : ℚ) / 12600⌉ = 0 := by
      rw [Int.ceil_eq_iff]
      norm_num
    rw [planWindows, segmentDuration, h]
    rfl

/-- C9 amended: for every `totalDuration ≤ 0` (and any positive
segment length; the code hardcodes 12600) the planner returns the
empty plan rather than failing — the code performs no input
validation and defines no `InvalidDuration`/`InvalidConfiguration`
errors. -/
theorem C9_amended (D L : ℚ) (hD : D ≤ 0) (hL : 0 < L) :
    planWindows D L = [] := by
  have h1 : D / L ≤ 0 := div_nonpos_iff.mpr (Or.inr ⟨hD, hL.le⟩)
  have h2 : ⌈D / L⌉ ≤ 0 := by
    have h3 : D / L ≤ ((0 : ℤ) : ℚ) := by exact_mod_cast h1
    exact Int.ceil_le.mpr h3
  have h4 : Int.toNat ⌈D / L⌉ = 0 := by omega
  simp [planWindows, h4]

/-- Witness for C9 amended at `totalDuration = -3`, length 5. -/
theorem C9_amended_witness : planWindows (-3) 5 = [] :=
  C9_amended (-3) 5 (by norm_num) (by norm_num)

/-- C3 counterexample: dispatching three segments where index 1's
submission fails yields only TWO job records, both STARTED — the
failed segment is logged and skipped, not recorded as `SubmitFailed`
(the claim requires three entries, one marked SubmitFailed).  All
three submissions are still attempted (indices [0, 1, 2]). -/
theorem C3_counterexample :
    (triggerTranscriptionJobs okExceptOne 99 segsThree).1.length = 2 ∧
    (triggerTranscriptionJobs okExceptOne 99 segsThree).1.map
      TranscriptionJob.segmentIndex = [0, 2] ∧
    (triggerTranscriptionJobs okExceptOne 99 segsThree).2 = [0, 1, 2] ∧
    ∀ j ∈ (triggerTranscriptionJobs okExceptOne 99 segsThree).1,
      j.status = ("STARTED").data := by
  decide

/-- C3 amended: a failed submission does not prevent the remaining
segments from being submitted (every input segment's index appears in
the attempt list), but the returned list contains one STARTED record
per SUCCESSFUL submission only — failed submissions are omitted, not
marked `SubmitFailed`. -/
theorem C3_amended (ok : ℕ → Bool) (now : ℕ)
    (segs : List SegmentUrlEntry) :
    (triggerTranscriptionJobs ok now segs).2 =
      segs.map SegmentUrlEntry.index ∧
    (triggerTranscriptionJobs ok now segs).1 =
      (segs.filter (fun seg => ok seg.index)).map
        (fun seg => ⟨jobNameOf seg.index now, seg.index, ("STARTED").data⟩) := by
  induction segs with
  | nil => simp [triggerTranscriptionJobs]
  | cons seg rest ih =>
      simp only [triggerTranscriptionJobs, List.map_cons, List.filter_cons]
      cases h : ok seg.index <;> simp [h, ih.1, ih.2]

theorem analyzeAudioFile_ok (env : Env) (s : St) (info : AudioInfo)
    (hget : env.s3GetOk = true) (hprobe : env.probeResult = some info) :
    analyzeAudioFile env s =
      ({ s with calls := s.calls ++ [ExtCall.s3Get, ExtCall.ffprobeCall],
                tmp := (s.tmp ++ [TempFile.probeInput]).erase TempFile.probeInput },
        Except.ok info) := by
  simp [analyzeAudioFile, hget, hprobe]

theorem splitLoop_calls_mono (env : Env) (L : ℚ) (ws : List Window) :
    ∀ s : St, ∃ t, (splitLoop env L ws s).1.calls = s.calls ++ t := by
  induction ws with
  | nil => intro s; exact ⟨[], by simp [splitLoop]⟩
  | cons w rest ih =>
      intro s
      simp only [splitLoop]
      by_cases h : env.transcodeOk w.index
      · simp only [h, if_true]
        obtain ⟨t, ht⟩ := ih _
        rw [ht]
        exact ⟨[ExtCall.ffmpegSegment w.index w.startTime L] ++ t, by simp⟩
      · simp only [h, Bool.false_eq_true, if_false]
        exact ⟨[ExtCall.ffmpegSegment w.index w.startTime L], rfl⟩

theorem splitLoop_head_mem (env : Env) (L : ℚ) (w : Window)
    (rest : List Window) (s : St) :
    ExtCall.ffmpegSegment w.index w.startTime L ∈
      (splitLoop env L (w :: rest) s).1.calls := by
  simp only [splitLoop]
  by_cases h : env.transcodeOk w.index
  · simp only [h, if_true]
    obtain ⟨t, ht⟩ := splitLoop_calls_mono env L rest _
    rw [ht]
    simp
  · simp only [h, Bool.false_eq_true, if_false]
    simp

theorem uploadLoop_calls_mono (env : Env) (b o : List Char)
    (segs : List Window) :
    ∀ (acc : List SegmentUrlEntry) (s : St),
      ∃ t, (uploadLoop env b o segs acc s).1.calls = s.calls ++ t := by
  induction segs with
  | nil => intro acc s; exact ⟨[], by simp [uploadLoop]⟩
  | cons seg rest ih =>
      intro acc s
      simp only [uploadLoop]
      by_cases h : env.putOk seg.index
      · simp only [h, if_true]
        obtain ⟨t, ht⟩ := ih _ _
        rw [ht]
        exact ⟨[ExtCall.s3Put seg.index] ++ t, by simp⟩
      · simp only [h, Bool.false_eq_true, if_false]
        exact ⟨[ExtCall.s3Put seg.index], rfl⟩

theorem cleanupTempFiles_calls (segments : List Window) (s : St) :
    (cleanupTempFiles segments s).calls = s.calls := rfl

theorem handler_fst (env : Env) (event : Event) :
    (handler env event).1 = (handlerTry env event St.empty).1 := by
  rw [handler]
  rcases handlerTry env event St.empty with ⟨s, res⟩
  cases res <;> rfl

theorem step_error {α β : Type} (s : St) (e : JsError)
    (f : α → St → St × Except JsError β) :
    step ((s, Except.error e) : St × Except JsError α) f
      = (s, Except.error e) := rfl

theorem step_ok {α β : Type} (s : St) (a : α)
    (f : α → St → St × Except JsError β) :
    step (s, Except.ok a) f = f a s := rfl

theorem step_calls_mem {α β : Type} (x : St × Except JsError α)
    (f : α → St → St × Except JsError β) (c : ExtCall)
    (hx : c ∈ x.1.calls)
    (hf : ∀ a s, c ∈ s.calls → c ∈ (f a s).1.calls) :
    c ∈ (step x f).1.calls := by
  rcases x with ⟨s, res⟩
  cases res with
  | error e => simpa [step] using hx
  | ok a => exact hf a s hx

theorem uploadLoop_mem_mono (env : Env) (b o : List Char)
    (segs : List Window) (acc : List SegmentUrlEntry) (s : St)
    (c : ExtCall) (hc : c ∈ s.calls) :
    c ∈ (uploadLoop env b o segs acc s).1.calls := by
  obtain ⟨t, ht⟩ := uploadLoop_calls_mono env b o segs acc s
  rw [ht]
  exact List.mem_append_left _ hc

theorem planWindows_cons (D L : ℚ) (hD : 0 < D) (hL : 0 < L) :
    ∃ rest, planWindows D L = ⟨0, 0, min L D⟩ :: rest := by
  obtain ⟨m, hm⟩ : ∃ m, Int.toNat ⌈D / L⌉ = m + 1 :=
    ⟨Int.toNat ⌈D / L⌉ - 1, by
      have : 0 < ⌈D / L⌉ := Int.ceil_pos.mpr (div_pos hD hL)
      omega⟩
  refine ⟨((List.range m).map Nat.succ).map
    (fun i => ⟨i, (i : ℚ) * L, min L (D - (i : ℚ) * L)⟩), ?_⟩
  rw [planWindows, hm, List.range_succ_eq_map, List.map_cons]
  norm_num

theorem splitAudioFile_mem (env : Env) (D : ℚ) (s : St)
    (hget : env.s3GetOk = true) (hD : 0 < D) :
    ExtCall.ffmpegSegment 0 0 segmentDuration ∈
      (splitAudioFile env D s).1.calls := by
  obtain ⟨rest, hws⟩ := planWindows_cons D segmentDuration hD
    (by norm_num [segmentDuration])
  rw [splitAudioFile, if_pos hget, hws]
  apply step_calls_mem
  · have := splitLoop_head_mem env segmentDuration
      ⟨0, 0, min segmentDuration D⟩ rest
      { s with calls := s.calls ++ [ExtCall.s3Get],
               tmp := s.tmp ++ [TempFile.splitInput] }
    simpa using this
  · intro a s2 hmem
    exact hmem

theorem handlerTry_noSplit (env : Env) (event : Event) (info : AudioInfo)
    (hkey : falsyStr event.s3Key = false)
    (hbucket : falsyStr event.bucketName = false)
    (hget : env.s3GetOk = true) (hprobe : env.probeResult = some info)
    (hdur : info.duration ≤ 14400) :
    handlerTry env event St.empty =
      (⟨[ExtCall.s3Get, ExtCall.ffprobeCall], [], []⟩,
        Except.ok ⟨200, HandlerBody.noSplitNeeded info.duration
          (("File is within AWS Transcribe limits").data)⟩) := by
  rw [handlerTry, if_neg (by simp [hkey, hbucket]),
    analyzeAudioFile_ok env St.empty info hget hprobe, step_ok,
    if_pos (by rw [fourHoursInSeconds]; exact hdur)]
  simp [St.empty]

theorem handlerTry_split_mem (env : Env) (event : Event) (info : AudioInfo)
    (hkey : falsyStr event.s3Key = false)
    (hbucket : falsyStr event.bucketName = false)
    (hget : env.s3GetOk = true) (hprobe : env.probeResult = some info)
    (hdur : 14400 < info.duration) :
    ExtCall.ffmpegSegment 0 0 segmentDuration ∈
      (handlerTry env event St.empty).1.calls := by
  have hD : 0 < info.duration := lt_trans (by norm_num) hdur
  have hnle : ¬ info.duration ≤ fourHoursInSeconds := by
    rw [fourHoursInSeconds]; exact not_le.mpr hdur
  rw [handlerTry, if_neg (by simp [hkey, hbucket]),
    analyzeAudioFile_ok env St.empty info hget hprobe, step_ok,
    if_neg hnle]
  apply step_calls_mem
  · exact splitAudioFile_mem env info.duration _ hget hD
  · intro segments s2 hmem
    apply step_calls_mem
    · exact uploadLoop_mem_mono env _ _ segments [] s2 _ hmem
    · intro us s3 hmem2
      rw [cleanupTempFiles_calls]
      exact hmem2

/-- C2: with a successful probe reporting duration `d ≤ 14400` (the
hardcoded four-hour ceiling, checked inclusively), the handler returns
the no-split-needed result carrying that duration, the only external
calls are the S3 read and the probe (no ffmpeg run, no object-store
write), and the store stays empty; when `d > 14400` the split proceeds
(the transcoder is invoked on the first window). -/
theorem C2_duration_gate (env : Env) (event : Event) (info : AudioInfo)
    (hkey : falsyStr event.s3Key = false)
    (hbucket : falsyStr event.bucketName = false)
    (hget : env.s3GetOk = true) (hprobe : env.probeResult = some info) :
    (info.duration ≤ 14400 →
      (handler env event).2 = ⟨200, HandlerBody.noSplitNeeded info.duration
        (("File is within AWS Transcribe limits").data)⟩ ∧
      (handler env event).1.calls = [ExtCall.s3Get, ExtCall.ffprobeCall] ∧
      (handler env event).1.store = []) ∧
    (14400 < info.duration →
      ExtCall.ffmpegSegment 0 0 segmentDuration ∈
        (handler env event).1.calls) := by
  constructor
  · intro hdur
    rw [handler, handlerTry_noSplit env event info hkey hbucket hget hprobe hdur]
    exact ⟨rfl, rfl, rfl⟩
  · intro hdur
    rw [handler_fst]
    exact handlerTry_split_mem env event info hkey hbucket hget hprobe hdur

/-- Witness for C2 at the spec's boundary example: probed duration
exactly 14400 yields the no-split-needed result. -/
theorem C2_duration_gate_witness :
    (handler envShort eventM).2 = ⟨200, HandlerBody.noSplitNeeded 14400
      (("File is within AWS Transcribe limits").data)⟩ ∧
    (handler envShort eventM).1.calls = [ExtCall.s3Get, ExtCall.ffprobeCall] ∧
    (handler envShort eventM).1.store = [] :=
  (C2_duration_gate envShort eventM infoShort rfl rfl rfl rfl).1 (by norm_num [infoShort])

/-- C10: when `s3Key` or `bucketName` is absent or falsy the handler
returns the structured 500 error naming the missing parameters, and
performs no external call at all: no S3 read, no write, no probe, no
transcription submission, and no temp file is created. -/
theorem C10_missing_params (env : Env) (event : Event)
    (h : falsyStr event.s3Key = true ∨ falsyStr event.bucketName = true) :
    (handler env event).2 =
      ⟨500, HandlerBody.errorBody (JsError.message JsError.missingParams)⟩ ∧
    (handler env event).1.calls = [] ∧
    (handler env event).1.store = [] ∧
    (handler env event).1.tmp = [] := by
  have hcond : (falsyStr event.s3Key || falsyStr event.bucketName) = true := by
    rcases h with h | h <;> simp [h]
  rw [handler, handlerTry, hcond]
  exact ⟨rfl, rfl, rfl, rfl⟩

/-- Witness for C10 at an event with no `s3Key`. -/
theorem C10_missing_params_witness :
    (handler envLong ⟨none, some (("audio-bucket").data)⟩).2 =
      ⟨500, HandlerBody.errorBody (JsError.message JsError.missingParams)⟩ ∧
    (handler envLong ⟨none, some (("audio-bucket").data)⟩).1.calls = [] ∧
    (handler envLong ⟨none, some (("audio-bucket").data)⟩).1.store = [] ∧
    (handler envLong ⟨none, some (("audio-bucket").data)⟩).1.tmp = [] :=
  C10_missing_params envLong ⟨none, some (("audio-bucket").data)⟩ (Or.inl rfl)

theorem step_eq_of_error {α β : Type} (x : St × Except JsError α)
    (f : α → St → St × Except JsError β) (e : JsError)
    (hx : x.2 = Except.error e) :
    step x f = (x.1, Except.error e) := by
  rcases x with ⟨s, res⟩
  cases res with
  | error e2 =>
      have h2 : e2 = e := by simpa using hx
      rw [h2]
      rfl
  | ok a => exact absurd hx (by simp)

theorem analyzeAudioFile_ok_empty (env : Env) (info : AudioInfo)
    (hget : env.s3GetOk = true) (hprobe : env.probeResult = some info) :
    analyzeAudioFile env St.empty =
      (⟨[ExtCall.s3Get, ExtCall.ffprobeCall], [], []⟩, Except.ok info) := by
  rw [analyzeAudioFile_ok env St.empty info hget hprobe]
  simp [St.empty]

theorem splitLoop_ok (env : Env) (L : ℚ)
    (htc : ∀ i, env.transcodeOk i = true) :
    ∀ (ws : List Window) (s : St),
      splitLoop env L ws s =
        (⟨s.calls ++ ws.map (fun w => ExtCall.ffmpegSegment w.index w.startTime L),
          s.tmp ++ ws.map (fun w => TempFile.segFile w.index), s.store⟩,
         Except.ok ()) := by
  intro ws
  induction ws with
  | nil => intro s; simp [splitLoop]
  | cons w rest ih =>
      intro s
      simp only [splitLoop, htc w.index, if_true]
      rw [ih]
      simp

theorem splitAudioFile_ok (env : Env) (D : ℚ) (s : St)
    (hget : env.s3GetOk = true)
    (htc : ∀ i, env.transcodeOk i = true) :
    splitAudioFile env D s =
      (⟨(s.calls ++ [ExtCall.s3Get]) ++ (planWindows D segmentDuration).map
          (fun w => ExtCall.ffmpegSegment w.index w.startTime segmentDuration),
        ((s.tmp ++ [TempFile.splitInput]) ++ (planWindows D segmentDuration).map
          (fun w => TempFile.segFile w.index)).erase TempFile.splitInput,
        s.store⟩,
       Except.ok (planWindows D segmentDuration)) := by
  rw [splitAudioFile, if_pos hget]
  dsimp only
  rw [splitLoop_ok env segmentDuration htc, step_ok]

theorem planWindows_range' (D L : ℚ) :
    planWindows D L = (List.range' 0 (Int.toNat ⌈D / L⌉)).map
      (fun i => ⟨i, (i : ℚ) * L, min L (D - (i : ℚ) * L)⟩) := by
  rw [planWindows, List.range_eq_range']

theorem uploadLoop_firstFail (env : Env) (b o : List Char) (f : ℕ → Window)
    (hf : ∀ j, (f j).index = j) (k : ℕ) (hfail : env.putOk k = false) :
    ∀ (m a : ℕ) (acc : List SegmentUrlEntry) (s : St),
      a ≤ k → k < a + m →
      (∀ j, a ≤ j → j < k → env.putOk j = true) →
      (uploadLoop env b o ((List.range' a m).map f) acc s).2 =
        Except.error (JsError.putFailed k) ∧
      (uploadLoop env b o ((List.range' a m).map f) acc s).1.store =
        s.store ++ (List.range' a (k - a)).map (fun j => segmentKeyOf o j) := by
  intro m
  induction m with
  | zero => intro a acc s h1 h2 h3; omega
  | succ m ih =>
      intro a acc s h1 h2 h3
      rw [List.range'_succ, List.map_cons]
      by_cases hak : a = k
      · subst hak
        have hk0 : a - a = 0 := by omega
        constructor <;> simp [uploadLoop, hf, hfail, hk0]
      · have hlt : a < k := lt_of_le_of_ne h1 hak
        have hOk : env.putOk a = true := h3 a le_rfl hlt
        have h3' : ∀ j, a + 1 ≤ j → j < k → env.putOk j = true :=
          fun j hj1 hj2 => h3 j (by omega) hj2
        simp only [uploadLoop, hf, hOk, if_true]
        refine ⟨(ih (a + 1) _ _ (by omega) (by omega) h3').1, ?_⟩
        rw [(ih (a + 1) _ _ (by omega) (by omega) h3').2]
        have hka : k - a = (k - (a + 1)) + 1 := by omega
        rw [hka, List.range'_succ, List.map_cons]
        simp

/-- C4: when publish of the segment at index `k` fails after every
index below `k` succeeded (probe successful, duration above the
ceiling, all ffmpeg runs successful), the whole pipeline returns the
statusCode-500 failure result — there is no partial-success status —
while the store still holds exactly the published objects for indices
below `k` (no rollback). -/
theorem C4_publish_failure (env : Env) (event : Event) (info : AudioInfo)
    (k : ℕ)
    (hkey : falsyStr event.s3Key = false)
    (hbucket : falsyStr event.bucketName = false)
    (hget : env.s3GetOk = true) (hprobe : env.probeResult = some info)
    (hdur : 14400 < info.duration)
    (htc : ∀ i, env.transcodeOk i = true)
    (hk : k < Int.toNat ⌈info.duration / segmentDuration⌉)
    (hok : ∀ j, j < k → env.putOk j = true)
    (hfail : env.putOk k = false) :
    (handler env event).2 =
      ⟨500, HandlerBody.errorBody (JsError.message (JsError.putFailed k))⟩ ∧
    (handler env event).1.store =
      (List.range k).map (fun j => segmentKeyOf (event.s3Key.getD []) j) := by
  have hnle : ¬ info.duration ≤ fourHoursInSeconds := by
    rw [fourHoursInSeconds]; exact not_le.mpr hdur
  have hfirst := uploadLoop_firstFail env (event.bucketName.getD [])
    (event.s3Key.getD [])
    (fun i => ⟨i, (i : ℚ) * segmentDuration,
      min segmentDuration (info.duration - (i : ℚ) * segmentDuration)⟩)
    (fun j => rfl) k hfail (Int.toNat ⌈info.duration / segmentDuration⌉) 0
  rw [handler, handlerTry, if_neg (by simp [hkey, hbucket]),
    analyzeAudioFile_ok_empty env info hget hprobe, step_ok,
    if_neg hnle,
    splitAudioFile_ok env info.duration _ hget htc, step_ok,
    planWindows_range' info.duration segmentDuration]
  rw [step_eq_of_error _ _ _ (hfirst _ _ (Nat.zero_le k) (by omega)
    (fun j hj1 hj2 => hok j hj2)).1]
  refine ⟨rfl, ?_⟩
  rw [(hfirst _ _ (Nat.zero_le k) (by omega)
    (fun j hj1 hj2 => hok j hj2)).2]
  simp [List.range_eq_range']

/-- Witness for C4: a seven-hour file whose second segment's publish
fails yields the 500 failure result, with segment 0's object still in
the store. -/
theorem C4_publish_failure_witness :
    (handler envPutFail eventM).2 =
      ⟨500, HandlerBody.errorBody (JsError.message (JsError.putFailed 1))⟩ ∧
    (handler envPutFail eventM).1.store =
      (List.range 1).map (fun j => segmentKeyOf (eventM.s3Key.getD []) j) :=
  C4_publish_failure envPutFail eventM infoLong 1 rfl rfl rfl rfl
    (by norm_num [infoLong])
    (fun i => rfl)
    (by
      have h : ⌈infoLong.duration / segmentDuration⌉ = 2 := by
        norm_num [infoLong, segmentDuration, Int.ceil_eq_iff]
      rw [h]
      decide)
    (fun j hj => by
      have hj0 : j = 0 := by omega
      subst hj0
      rfl)
    rfl

theorem uploadLoop_all_ok (env : Env) (b o : List Char) :
    ∀ (segs : List Window), (∀ seg ∈ segs, env.putOk seg.index = true) →
    ∀ (acc : List SegmentUrlEntry) (s : St),
      uploadLoop env b o segs acc s =
        (⟨s.calls ++ segs.map (fun seg => ExtCall.s3Put seg.index), s.tmp,
          s.store ++ segs.map (fun seg => segmentKeyOf o seg.index)⟩,
         Except.ok (acc ++ segs.map (fun seg =>
          ⟨s3UrlOf b (segmentKeyOf o seg.index), segmentKeyOf o seg.index,
            seg.index, seg.startTime, seg.duration⟩)))
  | [], _, acc, s => by simp [uploadLoop]
  | seg :: rest, hall, acc, s => by
      have hok : env.putOk seg.index = true :=
        hall seg (List.mem_cons_self seg rest)
      simp only [uploadLoop, hok, if_true]
      rw [uploadLoop_all_ok env b o rest
        (fun t ht => hall t (List.mem_cons_of_mem seg ht))]
      simp

theorem uploadLoop_tmp (env : Env) (b o : List Char) :
    ∀ (segs : List Window) (acc : List SegmentUrlEntry) (s : St),
      (uploadLoop env b o segs acc s).1.tmp = s.tmp
  | [], acc, s => by simp [uploadLoop]
  | seg :: rest, acc, s => by
      simp only [uploadLoop]
      by_cases h : env.putOk seg.index
      · simp only [h, if_true]
        rw [uploadLoop_tmp env b o rest]
      · simp only [h, Bool.false_eq_true, if_false]

/-- The plan for the seven-hour example file. -/
theorem planWindows_infoLong :
    planWindows infoLong.duration segmentDuration =
      [⟨0, 0, 12600⟩, ⟨1, 12600, 12600⟩] := by
  rw [show infoLong.duration = 25200 from rfl]
  have h : ⌈(25200 : ℚ) / 12600⌉ = 2 := by
    norm_num [Int.ceil_eq_iff]
  rw [planWindows, segmentDuration, h]
  have h3 : List.range (Int.toNat 2) = [0, 1] := rfl
  rw [h3]
  simp only [List.map_cons, List.map_nil, Window.mk.injEq]
  norm_num

/-- The plan for a file one second over the four-hour ceiling. -/
theorem planWindows_14401 :
    planWindows (14401 : ℚ) segmentDuration =
      [⟨0, 0, 12600⟩, ⟨1, 12600, 1801⟩] := by
  have h : ⌈(14401 : ℚ) / 12600⌉ = 2 := by
    norm_num [Int.ceil_eq_iff]
  rw [planWindows, segmentDuration, h]
  have h3 : List.range (Int.toNat 2) = [0, 1] := rfl
  rw [h3]
  simp only [List.map_cons, List.map_nil, Window.mk.injEq]
  norm_num

/-- C7 counterexample: for a 14401-second source the plan's window 1
has `lengthSeconds = 1801`, yet the ffmpeg invocation for that window
passes `duration = 12600` (the fixed nominal segment length), not the
window's length: the duration argument differs from
`min(maxSegmentLength, totalDuration - startSeconds)` on the final
window. -/
theorem C7_counterexample :
    (splitAudioFile envLong 14401 St.empty).1.calls =
      [ExtCall.s3Get, ExtCall.ffmpegSegment 0 0 12600,
       ExtCall.ffmpegSegment 1 12600 12600] ∧
    ((planWindows (14401 : ℚ) segmentDuration).getD 1 ⟨0, 0, 0⟩).duration
      = 1801 ∧
    (1801 : ℚ) ≠ 12600 := by
  refine ⟨?_, by rw [planWindows_14401]; rfl, by norm_num⟩
  rw [splitAudioFile_ok envLong 14401 St.empty rfl (fun i => rfl),
    planWindows_14401]
  simp [St.empty, segmentDuration]

/-- C7 amended: the extraction step makes exactly one transcoding call
per planned window in order; the start offset passed equals the
window's `startSeconds`, but the duration passed is always the fixed
`maxSegmentLength` (12600), which equals the window's `lengthSeconds`
for every window except possibly the last (shorter) one — the final
window's stream is bounded by the end of the source instead. -/
theorem C7_amended (env : Env) (D : ℚ) (s : St)
    (hget : env.s3GetOk = true) (htc : ∀ i, env.transcodeOk i = true)
    (hD : 0 < D) :
    (splitAudioFile env D s).1.calls =
      s.calls ++ [ExtCall.s3Get] ++ (planWindows D segmentDuration).map
        (fun w => ExtCall.ffmpegSegment w.index w.startTime segmentDuration) ∧
    (∀ (i : ℕ) (h : i + 1 < (planWindows D segmentDuration).length),
      ((planWindows D segmentDuration).get ⟨i, Nat.lt_of_succ_lt h⟩).duration
        = segmentDuration) := by
  constructor
  · rw [splitAudioFile_ok env D s hget htc]
  · intro i h
    rw [planWindows_get D segmentDuration i (Nat.lt_of_succ_lt h)]
    exact duration_eq_max D segmentDuration hD
      (by norm_num [segmentDuration]) i
      (by rwa [planWindows_length] at h)

/-- Witness for C7 amended at the seven-hour example. -/
theorem C7_amended_witness :
    (splitAudioFile envLong 25200 St.empty).1.calls =
      St.empty.calls ++ [ExtCall.s3Get] ++
        (planWindows 25200 segmentDuration).map
          (fun w => ExtCall.ffmpegSegment w.index w.startTime segmentDuration) :=
  (C7_amended envLong 25200 St.empty rfl (fun i => rfl) (by norm_num)).1

theorem step_calls_pred {α β : Type} (p : ExtCall → Prop)
    (x : St × Except JsError α) (f : α → St → St × Except JsError β)
    (hx : ∀ c ∈ x.1.calls, p c)
    (hf : ∀ a s, (∀ c ∈ s.calls, p c) → ∀ c ∈ (f a s).1.calls, p c) :
    ∀ c ∈ (step x f).1.calls, p c := by
  rcases x with ⟨s, res⟩
  cases res with
  | error e => simpa [step] using hx
  | ok a => exact hf a s hx

theorem analyzeAudioFile_no_transcribe (env : Env) (s : St)
    (h : ∀ c ∈ s.calls, ExtCall.isTranscribe c = false) :
    ∀ c ∈ (analyzeAudioFile env s).1.calls,
      ExtCall.isTranscribe c = false := by
  by_cases hget : env.s3GetOk = true
  · rcases hprobe : env.probeResult with _ | info
    all_goals
      simp only [analyzeAudioFile, hget, if_true, hprobe]
      intro c hc
      rcases List.mem_append.mp hc with h1 | h1
      · rcases List.mem_append.mp h1 with h2 | h2
        · exact h c h2
        · simp only [List.mem_singleton] at h2; subst h2; rfl
      · simp only [List.mem_singleton] at h1; subst h1; rfl
  · have hget' : env.s3GetOk = false := by simpa using hget
    simp only [analyzeAudioFile, hget', Bool.false_eq_true, if_false]
    intro c hc
    rcases List.mem_append.mp hc with h1 | h1
    · exact h c h1
    · simp only [List.mem_singleton] at h1; subst h1; rfl

theorem splitLoop_no_transcribe (env : Env) (L : ℚ) :
    ∀ (ws : List Window) (s : St),
      (∀ c ∈ s.calls, ExtCall.isTranscribe c = false) →
      ∀ c ∈ (splitLoop env L ws s).1.calls,
        ExtCall.isTranscribe c = false
  | [], s, h => by simpa [splitLoop] using h
  | w :: rest, s, h => by
      simp only [splitLoop]
      have hnext : ∀ c ∈ s.calls ++
          [ExtCall.ffmpegSegment w.index w.startTime L],
          ExtCall.isTranscribe c = false := by
        intro c hc
        rcases List.mem_append.mp hc with h1 | h1
        · exact h c h1
        · simp only [List.mem_singleton] at h1; subst h1; rfl
      by_cases htc : env.transcodeOk w.index
      · simp only [htc, if_true]
        exact splitLoop_no_transcribe env L rest _ hnext
      · simp only [htc, Bool.false_eq_true, if_false]
        exact hnext

theorem splitAudioFile_no_transcribe (env : Env) (D : ℚ) (s : St)
    (h : ∀ c ∈ s.calls, ExtCall.isTranscribe c = false) :
    ∀ c ∈ (splitAudioFile env D s).1.calls,
      ExtCall.isTranscribe c = false := by
  have happ : ∀ c ∈ s.calls ++ [ExtCall.s3Get],
      ExtCall.isTranscribe c = false := by
    intro c hc
    rcases List.mem_append.mp hc with h1 | h1
    · exact h c h1
    · simp only [List.mem_singleton] at h1; subst h1; rfl
  by_cases hget : env.s3GetOk = true
  · rw [splitAudioFile, if_pos hget]
    dsimp only
    apply step_calls_pred
    · exact splitLoop_no_transcribe env segmentDuration _ _ happ
    · intro a s2 h2
      exact h2
  · have hget' : env.s3GetOk = false := by simpa using hget
    rw [splitAudioFile, if_neg (by simp [hget'])]
    exact happ

theorem uploadLoop_no_transcribe (env : Env) (b o : List Char) :
    ∀ (segs : List Window) (acc : List SegmentUrlEntry) (s : St),
      (∀ c ∈ s.calls, ExtCall.isTranscribe c = false) →
      ∀ c ∈ (uploadLoop env b o segs acc s).1.calls,
        ExtCall.isTranscribe c = false
  | [], acc, s, h => by simpa [uploadLoop] using h
  | seg :: rest, acc, s, h => by
      simp only [uploadLoop]
      have hnext : ∀ c ∈ s.calls ++ [ExtCall.s3Put seg.index],
          ExtCall.isTranscribe c = false := by
        intro c hc
        rcases List.mem_append.mp hc with h1 | h1
        · exact h c h1
        · simp only [List.mem_singleton] at h1; subst h1; rfl
      by_cases hput : env.putOk seg.index
      · simp only [hput, if_true]
        exact uploadLoop_no_transcribe env b o rest _ _ hnext
      · simp only [hput, Bool.false_eq_true, if_false]
        exact hnext

theorem handlerTry_no_transcribe (env : Env) (event : Event) (s : St)
    (h : ∀ c ∈ s.calls, ExtCall.isTranscribe c = false) :
    ∀ c ∈ (handlerTry env event s).1.calls,
      ExtCall.isTranscribe c = false := by
  rw [handlerTry]
  by_cases hc : (falsyStr event.s3Key || falsyStr event.bucketName) = true
  · rw [if_pos hc]
    exact h
  · rw [if_neg hc]
    dsimp only
    apply step_calls_pred
    · exact analyzeAudioFile_no_transcribe env s h
    · intro info s1 h1
      by_cases hd : info.duration ≤ fourHoursInSeconds
      · rw [if_pos hd]
        exact h1
      · rw [if_neg hd]
        apply step_calls_pred
        · exact splitAudioFile_no_transcribe env info.duration s1 h1
        · intro segments s2 h2
          apply step_calls_pred
          · exact uploadLoop_no_transcribe env _ _ segments [] s2 h2
          · intro us s3 h3
            rw [cleanupTempFiles_calls]
            exact h3

theorem handlerTry_ok_shape (env : Env) (event : Event) (s s' : St)
    (r : HandlerResult)
    (h : handlerTry env event s = (s', Except.ok r)) :
    (∃ d m, r = ⟨200, HandlerBody.noSplitNeeded d m⟩) ∨
    (∃ f n us d, r = ⟨200, HandlerBody.splitComplete f n us d⟩) := by
  rw [handlerTry] at h
  by_cases hc : (falsyStr event.s3Key || falsyStr event.bucketName) = true
  · rw [if_pos hc] at h
    exact absurd (congrArg Prod.snd h) (by simp)
  · rw [if_neg hc] at h
    dsimp only at h
    rcases ha : analyzeAudioFile env s with ⟨s1, res1⟩
    rw [ha] at h
    cases res1 with
    | error e =>
        rw [step_error] at h
        exact absurd (congrArg Prod.snd h) (by simp)
    | ok info =>
        rw [step_ok] at h
        by_cases hd : info.duration ≤ fourHoursInSeconds
        · rw [if_pos hd] at h
          left
          exact ⟨info.duration, _,
            (Except.ok.inj (congrArg Prod.snd h)).symm⟩
        · rw [if_neg hd] at h
          rcases hsp : splitAudioFile env info.duration s1 with ⟨s2, res2⟩
          rw [hsp] at h
          cases res2 with
          | error e =>
              rw [step_error] at h
              exact absurd (congrArg Prod.snd h) (by simp)
          | ok segments =>
              rw [step_ok] at h
              rcases hup : uploadLoop env (event.bucketName.getD [])
                  (event.s3Key.getD []) segments [] s2 with ⟨s3, res3⟩
              rw [hup] at h
              cases res3 with
              | error e =>
                  rw [step_error] at h
                  exact absurd (congrArg Prod.snd h) (by simp)
              | ok us =>
                  rw [step_ok] at h
                  right
                  exact ⟨event.s3Key.getD [], us.length, us, info.duration,
                    (Except.ok.inj (congrArg Prod.snd h)).symm⟩

/-- C6 amended: every invocation yields exactly one of the three
structured shapes — statusCode-200 no-split-needed, statusCode-200
split-complete, or statusCode-500 error — and never a raw propagated
exception; the split-complete body carries the per-segment published
URLs and metadata, NOT per-segment dispatch statuses: the handler
never invokes the Transcription Dispatcher, so no dispatch status
exists in any result. -/
theorem C6_result_shape (env : Env) (event : Event) :
    ((∃ d m, (handler env event).2 = ⟨200, HandlerBody.noSplitNeeded d m⟩) ∨
     (∃ f n us d, (handler env event).2
        = ⟨200, HandlerBody.splitComplete f n us d⟩) ∨
     (∃ m, (handler env event).2 = ⟨500, HandlerBody.errorBody m⟩)) ∧
    (∀ c ∈ (handler env event).1.calls,
      ExtCall.isTranscribe c = false) := by
  constructor
  · rw [handler]
    rcases ht : handlerTry env event St.empty with ⟨s, res⟩
    cases res with
    | error e => exact Or.inr (Or.inr ⟨e.message, rfl⟩)
    | ok r =>
        rcases handlerTry_ok_shape env event St.empty s r ht with
          ⟨d, m, hr⟩ | ⟨f, n, us, d, hr⟩
        · exact Or.inl ⟨d, m, by rw [hr]⟩
        · exact Or.inr (Or.inl ⟨f, n, us, d, by rw [hr]⟩)
  · rw [handler_fst]
    exact handlerTry_no_transcribe env event St.empty (by simp [St.empty])

/-- The full successful split run on the seven-hour example. -/
theorem handlerTry_envLong :
    handlerTry envLong eventM St.empty =
      (⟨[ExtCall.s3Get, ExtCall.ffprobeCall, ExtCall.s3Get,
          ExtCall.ffmpegSegment 0 0 12600, ExtCall.ffmpegSegment 1 12600 12600,
          ExtCall.s3Put 0, ExtCall.s3Put 1],
        [],
        [("meeting_segment_0.mp3").data, ("meeting_segment_1.mp3").data]⟩,
       Except.ok ⟨200, HandlerBody.splitComplete (("meeting.mp3").data) 2
        [⟨("s3://audio-bucket/meeting_segment_0.mp3").data,
          ("meeting_segment_0.mp3").data, 0, 0, 12600⟩,
         ⟨("s3://audio-bucket/meeting_segment_1.mp3").data,
          ("meeting_segment_1.mp3").data, 1, 12600, 12600⟩]
        25200⟩) := by
  rw [handlerTry, if_neg (by decide),
    analyzeAudioFile_ok_empty envLong infoLong rfl rfl,
    step_ok, if_neg (by norm_num [infoLong, fourHoursInSeconds]),
    splitAudioFile_ok envLong infoLong.duration _ rfl (fun i => rfl), step_ok,
    planWindows_infoLong,
    uploadLoop_all_ok envLong _ _ _ (fun seg hs => rfl) _ _, step_ok]
  simp [cleanupTempFiles, segmentDuration]
  decide

/-- C6 counterexample: a fully successful seven-hour split produces the
split-complete result whose body carries only the per-segment published
URLs and metadata (no `TranscriptionJob`, no dispatch status of any
kind), and the invocation's trace contains no transcription
submission — contradicting the claim that the split-complete shape
comes with per-segment dispatch statuses. -/
theorem C6_counterexample :
    (handler envLong eventM).2.statusCode = 200 ∧
    (handler envLong eventM).2.body =
      HandlerBody.splitComplete (("meeting.mp3").data) 2
        [⟨("s3://audio-bucket/meeting_segment_0.mp3").data,
          ("meeting_segment_0.mp3").data, 0, 0, 12600⟩,
         ⟨("s3://audio-bucket/meeting_segment_1.mp3").data,
          ("meeting_segment_1.mp3").data, 1, 12600, 12600⟩]
        25200 ∧
    ∀ c ∈ (handler envLong eventM).1.calls,
      ExtCall.isTranscribe c = false := by
  rw [handler, handlerTry_envLong]
  refine ⟨rfl, rfl, ?_⟩
  decide

/-- C8: on the ffprobe-failure path, `analyzeAudioFile` rejects without
unlinking the downloaded temp input (index.js lines 107-111), so the
invocation ends with `/tmp/input_*.mp3` still present; on a
publish-failure path, `cleanupTempFiles` (line 60) is never reached, so
every per-segment temp file is leaked as well.  Both failing runs
return the 500 failure result with temp files left behind. -/
theorem C8_temp_leak :
    ((handler envProbeFail eventM).2.statusCode = 500 ∧
     (handler envProbeFail eventM).1.tmp = [TempFile.probeInput]) ∧
    ((handler envPutFail eventM).2.statusCode = 500 ∧
     (handler envPutFail eventM).1.tmp =
       [TempFile.segFile 0, TempFile.segFile 1]) := by
  constructor
  · constructor <;> decide
  · have hupfail : ∀ (b o : List Char) (acc : List SegmentUrlEntry) (s : St),
        (uploadLoop envPutFail b o
          [⟨0, 0, 12600⟩, ⟨1, 12600, 12600⟩] acc s).2 =
          Except.error (JsError.putFailed 1) := by
      intro b o acc s
      simp [uploadLoop, envPutFail, envOf]
    have htmp : ∀ (b o : List Char) (acc : List SegmentUrlEntry) (s : St),
        (uploadLoop envPutFail b o
          [⟨0, 0, 12600⟩, ⟨1, 12600, 12600⟩] acc s).1.tmp = s.tmp :=
      fun b o acc s => uploadLoop_tmp envPutFail b o _ acc s
    rw [handler, handlerTry, if_neg (by decide),
      analyzeAudioFile_ok_empty envPutFail infoLong rfl rfl,
      step_ok, if_neg (by norm_num [infoLong, fourHoursInSeconds]),
      splitAudioFile_ok envPutFail infoLong.duration _ rfl (fun i => rfl),
      step_ok, planWindows_infoLong,
      step_eq_of_error _ _ _ (hupfail _ _ _ _)]
    refine ⟨rfl, ?_⟩
    rw [htmp]
    decide

end BoardBreeze
